import Mathlib

/-!
Verification of the `better_nilm` data-preparation core.

This file gives a shallow embedding, in Lean 4, of the parts of the
repository that the specification's claims are about:

* `better_nilm/nilmtk/metergroup_utils.py` — `get_good_sections`, the
  sweep-line algorithm intersecting per-meter good recording sections;
* `better_nilm/nilmtk/data_loader.py` — `_ensure_continuous_series` and the
  column logic of `metergroup_to_array`;
* `better_nilm/ukdale/ukdale_data.py` — `load_ukdale_meter`, the
  threshold-count check in `load_ukdale_series`, and the `Power` dataset;
* the duration-hysteresis status filter (whose implementation lives in
  `better_nilm/model/preprocessing.py`, outside the sources at hand; it is
  modelled from the specification's description, as marked below).

Timestamps are modelled in integer seconds (`ℤ`), power values as rationals
(`ℚ`), Python integers as `ℤ`/`ℕ`, pandas missing values as `Option`, and
raised exceptions as `Except`.  Python's `sorted` on `(timestamp, kind)`
tuples compares the kind strings lexicographically by code point, which is
the lexicographic order on their character lists.  Randomness
(`np.random.randint`) is modelled by passing the drawn value explicitly,
together with its contract `low ≤ r < high`.
-/

/-- Raised Python exceptions are modelled with `Except`; equality of outcomes
is decidable whenever the payloads' equality is. -/
instance {e a : Type} [DecidableEq e] [DecidableEq a] :
    DecidableEq (Except e a) := fun x y =>
  match x, y with
  | .error u, .error v =>
    decidable_of_iff (u = v) ⟨fun h => by rw [h], fun h => by injection h⟩
  | .ok u, .ok v =>
    decidable_of_iff (u = v) ⟨fun h => by rw [h], fun h => by injection h⟩
  | .error _, .ok _ => isFalse fun h => by injection h
  | .ok _, .error _ => isFalse fun h => by injection h

/-! ## Good-Section Finder (`metergroup_utils.get_good_sections`) -/

/-- A boundary event of a good section: `(timestamp in seconds, kind)` with
`kind ∈ {"start", "end"}`, exactly as the Python code builds
`(v, k) for k, v in section.to_dict().items()`. -/
abbrev SweepEvent := ℤ × String

/-- The order in which Python's `sorted` arranges the event tuples:
lexicographic on the pair, comparing the kind strings lexicographically by
code point (the order on their character lists). -/
def evLE (a b : SweepEvent) : Prop :=
  a.1 < b.1 ∨ (a.1 = b.1 ∧ a.2.data ≤ b.2.data)

instance : DecidableRel evLE := fun a b =>
  inferInstanceAs (Decidable (a.1 < b.1 ∨ (a.1 = b.1 ∧ a.2.data ≤ b.2.data)))

instance : IsTotal SweepEvent evLE := by
  constructor
  intro a b
  rcases lt_trichotomy a.1 b.1 with h | h | h
  · exact Or.inl (Or.inl h)
  · rcases le_total a.2.data b.2.data with h2 | h2
    · exact Or.inl (Or.inr ⟨h, h2⟩)
    · exact Or.inr (Or.inr ⟨h.symm, h2⟩)
  · exact Or.inr (Or.inl h)

instance : IsTrans SweepEvent evLE := by
  constructor
  rintro a b c (hab | ⟨hab, hab2⟩) (hbc | ⟨hbc, hbc2⟩)
  · exact Or.inl (hab.trans hbc)
  · exact Or.inl (hbc ▸ hab)
  · exact Or.inl (hab ▸ hbc)
  · exact Or.inr ⟨hab.trans hbc, hab2.trans hbc2⟩

/-- `sorted(timestamps)`: Python's sort of the event tuples.  Since `evLE` is
a total order whose ties only relate equal pairs, any sorted permutation is
the one Python produces. -/
def sortEvents (l : List SweepEvent) : List SweepEvent :=
  List.insertionSort evLE l

/-- The mutable state of the sweep loop in `get_good_sections`. -/
structure SweepState where
  totalChunks : ℤ
  goodSections : List (ℤ × ℤ)
  tsStart : Option ℤ
  overlap : ℤ
deriving DecidableEq

/-- Initial sweep state (`total_chunks = 0`, `good_sections = []`,
`ts_start = None`, `overlap = 0`). -/
def initState : SweepState := ⟨0, [], none, 0⟩

/-- `dt = floor(timedelta / sample_period)` followed by
`chunks = floor((dt - window_size) / step) + 1`; `Int.fdiv` is floor
division. -/
def chunkCount (sp ws stp td : ℤ) : ℤ :=
  (td.fdiv sp - ws).fdiv stp + 1

/-- The trimmed duration `((chunks - 1) * step + window_size) * sample_period`
in seconds. -/
def trimDelta (sp ws stp chunks : ℤ) : ℤ :=
  ((chunks - 1) * stp + ws) * sp

/-- One iteration of the `for stamp in timestamps` loop of
`get_good_sections`: branch on the event kind, close the open section on an
`"end"` event when `ts_start` is set (resetting `ts_start` only when
`chunks > 0`), then reopen when `overlap` equals the meter count. -/
def stepEvent (n : ℕ) (sp ws stp : ℤ) (st : SweepState) (ev : SweepEvent) :
    SweepState :=
  let st1 :=
    if ev.2 = "start" then
      { st with overlap := st.overlap + 1 }
    else
      let st2 : SweepState := { st with overlap := st.overlap - 1 }
      match st.tsStart with
      | none => st2
      | some ts0 =>
        let chunks := chunkCount sp ws stp (ev.1 - ts0)
        if 0 < chunks then
          { st2 with
            totalChunks := st2.totalChunks + chunks
            goodSections :=
              st2.goodSections ++ [(ts0, ts0 + trimDelta sp ws stp chunks)]
            tsStart := none }
        else
          st2
  if st1.overlap = (n : ℤ) then { st1 with tsStart := some ev.1 } else st1

/-- `max_windows is not None and total_chunks >= max_windows`. -/
def capReached (cap : Option ℤ) (total : ℤ) : Bool :=
  match cap with
  | none => false
  | some m => decide (m ≤ total)

/-- The sweep loop with its `break`: process events in order, stopping as
soon as the accumulated chunk total reaches the cap. -/
def sweepEvents (n : ℕ) (sp ws stp : ℤ) (cap : Option ℤ) :
    SweepState → List SweepEvent → SweepState
  | st, [] => st
  | st, ev :: rest =>
    let st1 := stepEvent n sp ws stp st ev
    if capReached cap st1.totalChunks then st1
    else sweepEvents n sp ws stp cap st1 rest

/-- Event collection for one meter: keep the sections whose duration is at
least `sample_period * window_size` seconds and emit their two boundary
events. -/
def sectionEvents (sp ws : ℤ) (sections : List (ℤ × ℤ)) : List SweepEvent :=
  (sections.filter fun ab => decide (sp * ws ≤ ab.2 - ab.1)).foldr
    (fun ab acc => (ab.1, "start") :: (ab.2, "end") :: acc) []

/-- All events of all meters of the group. -/
def collectEvents (sp ws : ℤ) (meterSections : List (List (ℤ × ℤ))) :
    List SweepEvent :=
  meterSections.foldr (fun secs acc => sectionEvents sp ws secs ++ acc) []

/-- `get_good_sections`, returning the whole final sweep state.  A meter
group is modelled by the list of its meters' good-section lists; the meter
count `len(metergroup.instance())` is the length of that list.  `stpOpt` is
the `step` parameter (`None` defaults to `window_size`), `cap` is
`max_windows`. -/
def getGoodSectionsState (sp ws : ℤ) (stpOpt cap : Option ℤ)
    (meterSections : List (List (ℤ × ℤ))) : SweepState :=
  sweepEvents meterSections.length sp ws (stpOpt.getD ws) cap initState
    (sortEvents (collectEvents sp ws meterSections))

/-- `get_good_sections`: the returned list of good sections. -/
def getGoodSections (sp ws : ℤ) (stpOpt cap : Option ℤ)
    (meterSections : List (List (ℤ × ℤ))) : List (ℤ × ℤ) :=
  (getGoodSectionsState sp ws stpOpt cap meterSections).goodSections

/-! ## Continuity validation (`data_loader._ensure_continuous_series`) -/

/-- Cut a list into successive rows of `n` entries, with enough fuel; each
step consumes at least one element when `n ≥ 1`, so `l.length` fuel
suffices. -/
def chunkRowsF {α : Type} : ℕ → ℕ → List α → List (List α)
  | _, _, [] => []
  | 0, _, _ :: _ => []
  | fuel + 1, n, x :: xs => ((x :: xs).take n) :: chunkRowsF fuel n ((x :: xs).drop n)

/-- `np.reshape(dates, (series_num, series_len))`: cut a list into successive
rows of `n` entries (the repository only calls this when the length is an
exact multiple of `n ≥ 1`; the same chunking also models the
`resample(period)` bucketing of a one-second grid). -/
def chunkRows {α : Type} (n : ℕ) (l : List α) : List (List α) :=
  match n with
  | 0 => if l.isEmpty then [] else [l]
  | m + 1 => chunkRowsF l.length (m + 1) l

/-- `dates[:, -1] - dates[:, 0]` for one reshaped row, in seconds. -/
def rowDelta (row : List ℤ) : ℤ :=
  row.getLastD 0 - row.headD 0

/-- `expected_delta = sample_period * (series_len - 1)`. -/
def expectedDelta (sp : ℤ) (seriesLen : ℕ) : ℤ :=
  sp * ((seriesLen : ℤ) - 1)

/-- The `for idx, delta in enumerate(dates_delta)` loop: raise on the first
row whose span differs from the expected one. -/
def checkRows (sp : ℤ) (seriesLen : ℕ) : List (List ℤ) → Except String Unit
  | [] => .ok ()
  | row :: rest =>
    if rowDelta row ≠ expectedDelta sp seriesLen then
      .error "Error in series: expected delta between begin and end differs"
    else
      checkRows sp seriesLen rest

/-- `_ensure_continuous_series(df, sample_period, series_len)` applied to the
date index of the aligned table. -/
def ensureContinuousSeries (sp : ℤ) (seriesLen : ℕ) (dates : List ℤ) :
    Except String Unit :=
  checkRows sp seriesLen (chunkRows seriesLen dates)

/-! ## Column logic of `data_loader.metergroup_to_array`

The aligned table produced by `df_from_sections` is modelled as a list of
named columns; only the steps of `metergroup_to_array` after that call are
embedded here (they are what the claims are about). -/

abbrev Table := List (String × List ℚ)

/-- The column names of a table, in order. -/
def colNames (t : Table) : List String :=
  t.map Prod.fst

/-- Python's string order (lexicographic by code point) on column names. -/
def nameLE (a b : String) : Prop :=
  a.data ≤ b.data

instance : DecidableRel nameLE := fun a b =>
  inferInstanceAs (Decidable (a.data ≤ b.data))

instance : IsTotal String nameLE := ⟨fun a b => le_total a.data b.data⟩

instance : IsTrans String nameLE := ⟨fun _ _ _ h h2 => h.trans h2⟩

/-- `sorted(df.columns)`. -/
def sortedNames (l : List String) : List String :=
  List.insertionSort nameLE l

/-- Elementwise sum of two columns. -/
def addVec (a b : List ℚ) : List ℚ :=
  List.zipWith (· + ·) a b

/-- Sum a nonempty family of same-named columns. -/
def mergeColumns : List (List ℚ) → List ℚ
  | [] => []
  | c :: rest => rest.foldl addVec c

/-- `df.groupby(df.columns, axis=1).sum()`: one column per distinct name, in
sorted name order, each the elementwise sum of the equally-named columns. -/
def groupSumCols (t : Table) : Table :=
  (sortedNames (colNames t).dedup).map fun nm =>
    (nm, mergeColumns ((t.filter fun c => c.1 == nm).map Prod.snd))

/-- `astype(int)`: Python/numpy `int` conversion truncates toward zero. -/
def ratTrunc (q : ℚ) : ℚ :=
  if 0 ≤ q then (⌊q⌋ : ℚ) else (⌈q⌉ : ℚ)

/-- `df.astype(int)` applied to every column. -/
def truncTable (t : Table) : Table :=
  t.map fun c => (c.1, c.2.map ratTrunc)

/-- The row count of the table (all columns share the date index). -/
def numRows (t : Table) : ℕ :=
  (t.head?.map fun c => c.2.length).getD 0

/-- Ordering of table columns by name, for `df.reindex(sorted(df.columns))`. -/
def tableLE (a b : String × List ℚ) : Prop :=
  a.1.data ≤ b.1.data

instance : DecidableRel tableLE := fun a b =>
  inferInstanceAs (Decidable (a.1.data ≤ b.1.data))

instance : IsTotal (String × List ℚ) tableLE := ⟨fun a b => le_total a.1.data b.1.data⟩

instance : IsTrans (String × List ℚ) tableLE := ⟨fun _ _ _ h h2 => h.trans h2⟩

/-- `df.reindex(sorted(df.columns), axis=1)`. -/
def sortTable (t : Table) : Table :=
  List.insertionSort tableLE t

/-- The effective appliance list: when a list is given, `"_main"` is appended
to it unless already present (`appliances += ["_main"]`); when `None`, all
columns of the table are taken. -/
def appsFor (t2names : List String) : Option (List String) → List String
  | some l => if "_main" ∈ l then l else l ++ ["_main"]
  | none => t2names

/-- `df.drop(drop_apps, axis=1)`: keep only the requested columns. -/
def keepRequested (apps : List String) (t : Table) : Table :=
  t.filter fun c => c.1 ∈ apps

/-- The `for app in appliances: if app not in df.columns: df[app] = 0` loop:
append an all-zero column for every requested name that is absent. -/
def zeroFill (apps : List String) (nrows : ℕ) (t3 : Table) : Table :=
  t3 ++ ((apps.filter fun a => a ∉ colNames t3).dedup.map
    fun a => (a, List.replicate nrows (0 : ℚ)))

/-- The table after the groupby-sum and the optional integer conversion. -/
def mainTable (t : Table) (toInt : Bool) : Table :=
  if toInt then truncTable (groupSumCols t) else groupSumCols t

/-- The column manipulation of `metergroup_to_array` after `df_from_sections`:
sum same-named columns; optionally convert to integers; fail when the
`"_main"` meter is missing; drop the columns not requested; add an all-zero
column for every requested appliance that is absent; sort columns by name. -/
def metergroupToArray (t : Table) (appliances : Option (List String))
    (toInt : Bool) : Except String Table :=
  let t2 := mainTable t toInt
  if "_main" ∉ colNames t2 then
    .error "No _main meter contained in df columns"
  else
    let apps := appsFor (colNames t2) appliances
    .ok (sortTable (zeroFill apps (numRows t2) (keepRequested apps t2)))

/-! ## Status duration hysteresis (Status Thresholder)

The hysteresis filter itself (`get_status` / `get_status_by_duration` in
`better_nilm/model/preprocessing.py`) is not among the sources at hand —
only its callers are — so it is modelled from the specification: after raw
binarization, merge any "off" run shorter than `min_off_duration` that is
sandwiched between two "on" samples, and only then flip to "off" every
remaining "on" run shorter than `min_on_duration`; boundary runs follow the
same rule as interior runs (an off run touching an end of the sequence has
no "on" sample on that side, hence is never sandwiched). -/

/-- Run-length encoding of a status sequence into `(value, run length)`
pairs of maximal runs. -/
def rle : List Bool → List (Bool × ℕ)
  | [] => []
  | b :: rest =>
    match rle rest with
    | [] => [(b, 1)]
    | (c, k) :: rs => if b = c then (c, k + 1) :: rs else (b, 1) :: (c, k) :: rs

/-- Decode a run-length encoding back into the status sequence. -/
def unrle (rs : List (Bool × ℕ)) : List Bool :=
  rs.foldr (fun bk acc => List.replicate bk.2 bk.1 ++ acc) []

/-- Modelled from the spec: flip to "on" every off run shorter than
`minOff` that has a run before it and a run after it (in an alternating run
list those neighbours are on runs, so the off run is sandwiched between two
on samples).  This helper handles runs that have a predecessor. -/
def fillOffAux (minOff : ℕ) : List (Bool × ℕ) → List (Bool × ℕ)
  | [] => []
  | [r] => [r]
  | r :: r2 :: rest =>
    (if r.1 = false ∧ r.2 < minOff then (true, r.2) else r) ::
      fillOffAux minOff (r2 :: rest)

/-- Modelled from the spec: off-gap filling over the whole run list; the
first run has no predecessor and is never filled. -/
def fillOff (minOff : ℕ) : List (Bool × ℕ) → List (Bool × ℕ)
  | [] => []
  | r :: rest => r :: fillOffAux minOff rest

/-- Modelled from the spec: flip to "off" every on run shorter than `minOn`,
at any position. -/
def dropOn (minOn : ℕ) (rs : List (Bool × ℕ)) : List (Bool × ℕ) :=
  rs.map fun r => if r.1 = true ∧ r.2 < minOn then (false, r.2) else r

/-- Modelled from the spec: the duration-hysteresis filter of the Status
Thresholder — off-gap filling first (re-encoding so that lengthened on runs
merge), then on-run discarding. -/
def filterStatus (minOff minOn : ℕ) (s : List Bool) : List Bool :=
  unrle (dropOn minOn (rle (unrle (fillOff minOff (rle s)))))

/-- The opposite composition (on-run discarding first), used to show that
the order of the two passes is observable. -/
def filterStatusDropFirst (minOff minOn : ℕ) (s : List Bool) : List Bool :=
  unrle (fillOff minOff (rle (unrle (dropOn minOn (rle s)))))

/-! ## Threshold-count validation (`ukdale_data.load_ukdale_series`)

`get_thresholds` and `get_status` live in `better_nilm/model/preprocessing.py`
(not among the sources at hand) and are abstracted as function parameters;
the embedded code is the call sequence of `load_ukdale_series` for one house:
compute thresholds, assert the count, and only then compute the status
array. -/

def loadHouseStatus (getThresholds : List (List ℚ) → List ℚ)
    (getStatus : List (List ℚ) → List ℚ → List (List Bool))
    (listAppliances : List String) (arrApps : List (List ℚ)) :
    Except String (List (List Bool)) :=
  let thresholds := getThresholds arrApps
  if thresholds.length ≠ listAppliances.length then
    .error "Number of thresholds does not match number of appliances"
  else
    .ok (getStatus arrApps thresholds)

/-! ## UKDALE meter loading (`ukdale_data.load_ukdale_meter`)

The raw meter readings are modelled already aligned to the one-second grid
of `resample('1s')`: one entry per second, `none` where the store has no
record.  Clipping and the `< 10` zeroing act on the recorded values, the
forward fill runs over the grid with limit 300, remaining holes become `0`,
and the final resampling averages consecutive `period`-second blocks. -/

/-- `.clip(0., cutoff)` on one value. -/
def clipVal (cutoff v : ℚ) : ℚ :=
  min (max v 0) cutoff

/-- `s[s < 10.] = 0.` on one value. -/
def threshVal (v : ℚ) : ℚ :=
  if v < 10 then 0 else v

/-- `ffill(limit=limit)`: fill a missing entry with the last recorded value,
for at most `limit` consecutive missing entries after it. -/
def ffillGo (limit : ℕ) : Option ℚ → ℕ → List (Option ℚ) → List (Option ℚ)
  | _, _, [] => []
  | some v, cnt, none :: rest =>
    if cnt < limit then some v :: ffillGo limit (some v) (cnt + 1) rest
    else none :: ffillGo limit (some v) (cnt + 1) rest
  | none, cnt, none :: rest => none :: ffillGo limit none cnt rest
  | _, _, some v :: rest => some v :: ffillGo limit (some v) 0 rest

/-- Forward fill over the whole grid. -/
def ffill (limit : ℕ) (l : List (Option ℚ)) : List (Option ℚ) :=
  ffillGo limit none 0 l

/-- The arithmetic mean of a list (`0` for the empty list, which never
arises from a nonempty grid). -/
def listMean (l : List ℚ) : ℚ :=
  l.sum / (l.length : ℚ)

/-- `load_ukdale_meter`: clip to `[0, cutoff]`, zero the values below `10`,
resample to the one-second grid with forward fill limited to `300`, fill the
remaining holes with `0`, and average consecutive `period`-second blocks. -/
def loadUkdaleMeter (cutoff : ℚ) (period : ℕ) (raw : List (Option ℚ)) :
    List ℚ :=
  let thresholded := raw.map (Option.map fun v => threshVal (clipVal cutoff v))
  let zeroed := (ffill 300 thresholded).map fun o => o.getD 0
  (chunkRows period zeroed).map listMean

/-! ## Windowed Dataset (`ukdale_data.Power`) -/

/-- The `Power` dataset: the constructor's stored fields, with the meter and
appliance series already divided by `max_power`. -/
structure Power where
  winLen : ℕ
  border : ℕ
  maxPower : ℚ
  train : Bool
  meter : List ℚ
  appliance : List ℚ
  status : List ℚ

/-- `Power.__init__`: store the configuration and the scaled copies of the
series (`meter.copy() / max_power`, `appliance.copy() / max_power`,
`status.copy()`). -/
def Power.make (meter appliance status : List ℚ) (winLen border : ℕ)
    (maxPower : ℚ) (train : Bool) : Power :=
  { winLen := winLen, border := border, maxPower := maxPower, train := train
    meter := meter.map (· / maxPower)
    appliance := appliance.map (· / maxPower)
    status := status }

/-- `self.epochs = (len(self.meter) - 2 * self.border) // self.length`. -/
def Power.epochs (P : Power) : ℕ :=
  (P.meter.length - 2 * P.border) / P.winLen

/-- The window origin used by `__getitem__`: the deterministic
`index * self.length + self.border`, overridden in training mode by the
`np.random.randint(border, len(meter) - length - border)` draw `r`. -/
def Power.origin (P : Power) (index r : ℕ) : ℕ :=
  if P.train then r else index * P.winLen + P.border

/-- `Power.__getitem__`: slice the input window with its borders, the target
and status windows without them, and subtract the input window's own mean. -/
def Power.getItem (P : Power) (index r : ℕ) : List ℚ × List ℚ × List ℚ :=
  let i := P.origin index r
  let x := (P.meter.drop (i - P.border)).take (P.winLen + 2 * P.border)
  let y := (P.appliance.drop i).take P.winLen
  let s := (P.status.drop i).take P.winLen
  (x.map fun v => v - listMean x, y, s)

/-! # Helper lemmas -/

theorem checkRows_ok_iff (sp : ℤ) (L : ℕ) :
    ∀ rows : List (List ℤ), checkRows sp L rows = .ok () ↔
      ∀ row ∈ rows, rowDelta row = expectedDelta sp L
  | [] => by simp [checkRows]
  | row :: rest => by
    by_cases h : rowDelta row = expectedDelta sp L
    · simp [checkRows, h, checkRows_ok_iff sp L rest]
    · simp [checkRows, h]

theorem checkRows_ok_or_error (sp : ℤ) (L : ℕ) :
    ∀ rows : List (List ℤ), checkRows sp L rows = .ok () ∨
      checkRows sp L rows =
        .error "Error in series: expected delta between begin and end differs"
  | [] => Or.inl rfl
  | row :: rest => by
    by_cases h : rowDelta row = expectedDelta sp L
    · simpa [checkRows, h] using checkRows_ok_or_error sp L rest
    · simp [checkRows, h]

theorem chunkRowsF_row_length {α : Type} (n : ℕ) :
    ∀ (fuel : ℕ) (l : List α), l.length ≤ fuel → (n + 1) ∣ l.length →
      ∀ row ∈ chunkRowsF fuel (n + 1) l, row.length = n + 1
  | 0, [] => by simp [chunkRowsF]
  | 0, x :: xs => by
    intro hlen
    simp at hlen
  | fuel + 1, [] => by simp [chunkRowsF]
  | fuel + 1, x :: xs => by
    intro hlen hdvd row hrow
    have hge : n + 1 ≤ (x :: xs).length :=
      Nat.le_of_dvd (by simp) hdvd
    rw [chunkRowsF] at hrow
    rcases List.mem_cons.mp hrow with h1 | h2
    · rw [h1, List.length_take]
      omega
    · refine chunkRowsF_row_length n fuel ((x :: xs).drop (n + 1)) ?_ ?_ row h2
      · simp only [List.length_drop, List.length_cons] at *
        omega
      · simpa [List.length_drop] using Nat.dvd_sub' hdvd dvd_rfl

theorem chunkRows_row_length {α : Type} (L : ℕ) (hL : 1 ≤ L) (l : List α)
    (hdvd : L ∣ l.length) : ∀ row ∈ chunkRows L l, row.length = L := by
  obtain ⟨n, rfl⟩ : ∃ n, L = n + 1 := ⟨L - 1, by omega⟩
  exact chunkRowsF_row_length n l.length l le_rfl hdvd

theorem stepEvent_none_tsStart (n : ℕ) (sp ws stp : ℤ) (st : SweepState)
    (ev : SweepEvent) (h : st.tsStart = none) :
    (stepEvent n sp ws stp st ev).goodSections = st.goodSections ∧
    (stepEvent n sp ws stp st ev).totalChunks = st.totalChunks := by
  by_cases hk : ev.2 = "start" <;> simp [stepEvent, hk, h] <;> split_ifs <;> simp

/-! # Claims -/

/-- **C2.** For every aligned table whose row count is `series_num × series_len`,
the continuity validation raises a fatal error iff some reshaped row of
`series_len` samples spans an elapsed time different from
`sample_period × (series_len − 1)`; a table in which every row spans exactly
that elapsed time passes without error. -/
theorem c2_continuity_error_iff_gap (sp : ℤ) (L : ℕ) (dates : List ℤ)
    (hL : 1 ≤ L) (hdiv : L ∣ dates.length) :
    (ensureContinuousSeries sp L dates = .ok () ↔
      ∀ row ∈ chunkRows L dates, rowDelta row = expectedDelta sp L) ∧
    ((∃ msg, ensureContinuousSeries sp L dates = .error msg) ↔
      ∃ row ∈ chunkRows L dates, rowDelta row ≠ expectedDelta sp L) ∧
    ∀ row ∈ chunkRows L dates, row.length = L := by
  refine ⟨checkRows_ok_iff sp L _, ⟨?_, ?_⟩, chunkRows_row_length L hL dates hdiv⟩
  · rintro ⟨msg, hmsg⟩
    by_contra hall
    push_neg at hall
    have hok := (checkRows_ok_iff sp L (chunkRows L dates)).mpr hall
    rw [ensureContinuousSeries] at hmsg
    rw [hok] at hmsg
    exact Except.noConfusion hmsg
  · rintro ⟨row, hrow, hne⟩
    rcases checkRows_ok_or_error sp L (chunkRows L dates) with hok | herr
    · exact absurd ((checkRows_ok_iff sp L _).mp hok row hrow) hne
    · exact ⟨_, herr⟩

/-- Witness for C2 at a concrete continuous table: six dates at period 6 with
`series_len = 3`, whose two rows both span `6 × 2` seconds. -/
theorem c2_witness :
    ((1 : ℕ) ≤ 3 ∧ (3 : ℕ) ∣ ([0, 6, 12, 100, 106, 112] : List ℤ).length) ∧
    (ensureContinuousSeries 6 3 [0, 6, 12, 100, 106, 112] = .ok () ↔
      ∀ row ∈ chunkRows 3 ([0, 6, 12, 100, 106, 112] : List ℤ),
        rowDelta row = expectedDelta 6 3) :=
  ⟨⟨by decide, by decide⟩,
    (c2_continuity_error_iff_gap 6 3 [0, 6, 12, 100, 106, 112]
      (by decide) (by decide)).1⟩

/-- **C3 counterexample.** In the sort of `get_good_sections`, two events at
the same timestamp are ordered with the `"end"` event first, not the
`"start"` event first: Python compares the kind strings and
`"end" < "start"`. -/
theorem c3_counterexample :
    sortEvents [((5 : ℤ), "start"), ((5 : ℤ), "end")] =
      [((5 : ℤ), "end"), ((5 : ℤ), "start")] ∧
    ¬ evLE ((5 : ℤ), "start") ((5 : ℤ), "end") := by decide

/-- **C3 (amended).** The boundary events are sorted by timestamp, but ties
are broken with every `"end"` event before every `"start"` event (string
comparison: `"end" < "start"`), so a section closing at the same instant
another opens closes the current all-meters interval and reopens a new one
at that instant: the overlap sweep splits there (as in the concrete run
below, where meter B's back-to-back sections `[0,5]`, `[5,10]` split meter
A's `[0,10]` into the two trimmed sections `[0,4]` and `[5,9]`). -/
theorem c3_amended_end_before_start :
    (∀ t : ℤ, evLE (t, "end") (t, "start") ∧ ¬ evLE (t, "start") (t, "end")) ∧
    (∀ l : List SweepEvent, List.Sorted evLE (sortEvents l)) ∧
    getGoodSections 1 2 none none [[(0, 10)], [(0, 5), (5, 10)]] =
      [(0, 4), (5, 9)] := by
  refine ⟨?_, ?_, by decide⟩
  · intro t
    refine ⟨Or.inr ⟨rfl, (by decide : "end".data ≤ "start".data)⟩, ?_⟩
    rintro (hlt | ⟨-, hle⟩)
    · exact lt_irrefl t hlt
    · exact absurd hle (by decide : ¬ "start".data ≤ "end".data)
  · intro l
    exact List.sorted_insertionSort evLE l

/-- **C4 (code bug).** With meters recording over `[0,20]` and `[15,40]`
(period 1, window 10), the overlap interval `[15,20]` has `chunkCount = 0`
and must be discarded — but `ts_start` is only reset when `chunks > 0`, so
the stale start `15` is closed against the later end event `40`, and
`get_good_sections` emits `[(15, 35)]`: an interval extending 15 seconds
past the first meter's recording end `20`. -/
theorem c4_short_interval_start_leaks :
    getGoodSections 1 10 none none [[(0, 20)], [(15, 40)]] = [(15, 35)] ∧
    chunkCount 1 10 10 (20 - 15) = 0 ∧ (20 : ℤ) < 35 := by decide

/-- **C6.** (Modelled from the spec: the filter's implementation is not among
the sources.)  Off-gap filling precedes on-run discarding: the claim's
2-sample dip inside a 20-sample on run (min_off 3, min_on 5) filters to an
unbroken on run; with a 4∣2∣4 trace the fill-first order keeps everything on
while the opposite order would discard everything, so the order is
observable; and boundary runs follow the same rule as interior runs (a short
leading on-run is discarded; a short leading off-run has no on sample on its
left and is not filled). -/
theorem c6_fill_before_drop :
    filterStatus 3 5 (List.replicate 10 true ++ List.replicate 2 false ++
      List.replicate 10 true) = List.replicate 22 true ∧
    filterStatus 3 5 (List.replicate 4 true ++ List.replicate 2 false ++
      List.replicate 4 true) = List.replicate 10 true ∧
    filterStatusDropFirst 3 5 (List.replicate 4 true ++
      List.replicate 2 false ++ List.replicate 4 true) =
      List.replicate 10 false ∧
    filterStatus 3 5 (List.replicate 4 true ++ List.replicate 10 false) =
      List.replicate 14 false ∧
    filterStatus 3 5 (List.replicate 2 false ++ List.replicate 10 true) =
      List.replicate 2 false ++ List.replicate 10 true := by decide

/-- **C8.** `get_good_sections` stops scanning as soon as the accumulated
window total reaches the cap (the remaining events are ignored), and a cap
of zero yields an empty list of good sections on any input, without
error. -/
theorem c8_cap_short_circuit (sp ws : ℤ) (stpOpt : Option ℤ)
    (meterSections : List (List (ℤ × ℤ))) :
    getGoodSections sp ws stpOpt (some 0) meterSections = [] ∧
    ∀ (n : ℕ) (stp : ℤ) (cap : Option ℤ) (st : SweepState) (ev : SweepEvent)
      (rest : List SweepEvent),
      capReached cap (stepEvent n sp ws stp st ev).totalChunks = true →
      sweepEvents n sp ws stp cap st (ev :: rest) = stepEvent n sp ws stp st ev := by
  constructor
  · unfold getGoodSections getGoodSectionsState
    cases hevs : sortEvents (collectEvents sp ws meterSections) with
    | nil => rfl
    | cons e rest =>
      have h0 := stepEvent_none_tsStart meterSections.length sp ws
        (stpOpt.getD ws) initState e rfl
      have hcap : capReached (some 0)
          (stepEvent meterSections.length sp ws (stpOpt.getD ws) initState
            e).totalChunks = true := by
        rw [h0.2]
        decide
      simp [sweepEvents, hcap, h0.1]
      rfl
  · intro n stp cap st ev rest hcap
    simp [sweepEvents, hcap]

/-- Witness for C8: the cap-zero branch at a concrete meter group, and the
short-circuit at a concrete state whose chunk total already reached the
cap. -/
theorem c8_witness :
    getGoodSections 1 600 none (some 0) [[(0, 1200)]] = [] ∧
    sweepEvents 1 1 600 600 (some 1) ⟨5, [], none, 0⟩
        [((0 : ℤ), "start"), ((99 : ℤ), "end")] =
      stepEvent 1 1 600 600 ⟨5, [], none, 0⟩ ((0 : ℤ), "start") :=
  ⟨(c8_cap_short_circuit 1 600 none [[(0, 1200)]]).1,
    (c8_cap_short_circuit 1 600 none [[(0, 1200)]]).2 1 600 (some 1)
      ⟨5, [], none, 0⟩ ((0 : ℤ), "start") [((99 : ℤ), "end")] (by decide)⟩

/-- **C9.** When the computed threshold count does not match the requested
appliance count, `load_ukdale_series` fails with the fatal assertion error,
and no status values are computed: the outcome is the error for every
possible status function, hence independent of it. -/
theorem c9_threshold_mismatch_fails_fast
    (getThresholds : List (List ℚ) → List ℚ)
    (listAppliances : List String) (arrApps : List (List ℚ))
    (hmis : (getThresholds arrApps).length ≠ listAppliances.length) :
    (∀ getStatus, loadHouseStatus getThresholds getStatus listAppliances
      arrApps =
      .error "Number of thresholds does not match number of appliances") ∧
    ∀ gs1 gs2, loadHouseStatus getThresholds gs1 listAppliances arrApps =
      loadHouseStatus getThresholds gs2 listAppliances arrApps := by
  constructor
  · intro gs
    simp [loadHouseStatus, hmis]
  · intro gs1 gs2
    simp [loadHouseStatus, hmis]

/-- Witness for C9: one appliance requested but zero thresholds computed. -/
theorem c9_witness :
    ((fun _ : List (List ℚ) => ([] : List ℚ)) []).length ≠
      (["fridge"] : List String).length ∧
    ∀ gs1 gs2, loadHouseStatus (fun _ => []) gs1 ["fridge"] [] =
      loadHouseStatus (fun _ => []) gs2 ["fridge"] [] :=
  ⟨by decide,
    (c9_threshold_mismatch_fails_fast (fun _ => []) ["fridge"] []
      (by decide)).2⟩

theorem stepEvent_goodSections (n : ℕ) (sp ws stp : ℤ) (st : SweepState)
    (ev : SweepEvent) :
    (stepEvent n sp ws stp st ev).goodSections = st.goodSections ∨
    ∃ ts0, st.tsStart = some ts0 ∧ 0 < chunkCount sp ws stp (ev.1 - ts0) ∧
      (stepEvent n sp ws stp st ev).goodSections = st.goodSections ++
        [(ts0, ts0 + trimDelta sp ws stp (chunkCount sp ws stp (ev.1 - ts0)))] := by
  by_cases hk : ev.2 = "start"
  · left
    simp only [stepEvent, hk, if_true]
    split_ifs <;> rfl
  · cases hts : st.tsStart with
    | none =>
      left
      simp only [stepEvent, hk, if_false, hts]
      split_ifs <;> rfl
    | some ts0 =>
      by_cases hch : 0 < chunkCount sp ws stp (ev.1 - ts0)
      · right
        refine ⟨ts0, rfl, hch, ?_⟩
        simp only [stepEvent, hk, if_false, hts, hch, if_true]
        split_ifs <;> rfl
      · left
        simp only [stepEvent, hk, if_false, hts, hch]
        split_ifs <;> rfl

theorem sweepEvents_sections_trimmed (n : ℕ) (sp ws stp : ℤ) (cap : Option ℤ) :
    ∀ (evs : List SweepEvent) (st : SweepState),
      (∀ ab ∈ st.goodSections, ∃ tEnd,
        0 < chunkCount sp ws stp (tEnd - ab.1) ∧
        ab.2 = ab.1 + trimDelta sp ws stp (chunkCount sp ws stp (tEnd - ab.1))) →
      ∀ ab ∈ (sweepEvents n sp ws stp cap st evs).goodSections, ∃ tEnd,
        0 < chunkCount sp ws stp (tEnd - ab.1) ∧
        ab.2 = ab.1 + trimDelta sp ws stp (chunkCount sp ws stp (tEnd - ab.1))
  | [], st => fun hinv => by simpa [sweepEvents] using hinv
  | ev :: rest, st => fun hinv => by
    have hstep : ∀ ab ∈ (stepEvent n sp ws stp st ev).goodSections, ∃ tEnd,
        0 < chunkCount sp ws stp (tEnd - ab.1) ∧
        ab.2 = ab.1 + trimDelta sp ws stp (chunkCount sp ws stp (tEnd - ab.1)) := by
      rcases stepEvent_goodSections n sp ws stp st ev with h | ⟨ts0, -, hch, h⟩
      · rw [h]; exact hinv
      · rw [h]
        intro ab hab
        rcases List.mem_append.mp hab with h1 | h2
        · exact hinv ab h1
        · have hab2 := List.mem_singleton.mp h2
          subst hab2
          exact ⟨ev.1, hch, rfl⟩
    by_cases hcap : capReached cap (stepEvent n sp ws stp st ev).totalChunks = true
    · intro ab hab
      rw [sweepEvents] at hab
      simp only [hcap, if_true] at hab
      exact hstep ab hab
    · intro ab hab
      rw [sweepEvents] at hab
      simp only [hcap, if_false] at hab
      exact sweepEvents_sections_trimmed n sp ws stp cap rest _ hstep ab hab

/-- **C1.** Every interval emitted by `get_good_sections` is trimmed exactly:
its end is its start plus `((window_count − 1) × step + window_length) ×
sample_period` seconds, where `window_count = floor((dt − window_length) /
step) + 1` and `dt = floor(total_seconds / sample_period)` is computed from
the closing event's timestamp; in particular with `window_length = step =
600` at period 6, a section of exactly 1200 samples (7200 s) yields 2
windows and is kept whole, and a section of 1199 samples (7194 s) yields 1
window and is trimmed to 3600 s. -/
theorem c1_window_count_and_trim (sp ws : ℤ) (stpOpt cap : Option ℤ)
    (meterSections : List (List (ℤ × ℤ))) (ab : ℤ × ℤ)
    (hmem : ab ∈ getGoodSections sp ws stpOpt cap meterSections) :
    (∃ tEnd : ℤ,
      0 < chunkCount sp ws (stpOpt.getD ws) (tEnd - ab.1) ∧
      ab.2 = ab.1 + trimDelta sp ws (stpOpt.getD ws)
        (chunkCount sp ws (stpOpt.getD ws) (tEnd - ab.1))) ∧
    chunkCount 6 600 600 7200 = 2 ∧
    chunkCount 6 600 600 7194 = 1 ∧
    (getGoodSectionsState 6 600 none none [[(0, 7200)]]).totalChunks = 2 ∧
    (getGoodSectionsState 6 600 none none [[(0, 7194)]]).totalChunks = 1 ∧
    getGoodSections 6 600 none none [[(0, 7200)]] = [(0, 7200)] ∧
    getGoodSections 6 600 none none [[(0, 7194)]] = [(0, 3600)] := by
  refine ⟨?_, by decide, by decide, by decide, by decide, by decide, by decide⟩
  refine sweepEvents_sections_trimmed meterSections.length sp ws
    (stpOpt.getD ws) cap (sortEvents (collectEvents sp ws meterSections))
    initState ?_ ab hmem
  intro ab2 hab2
  simp [initState] at hab2

/-- Witness for C1: the single-meter section `[0, 7200]` at period 6 is
emitted untrimmed with two windows. -/
theorem c1_witness :
    ((0 : ℤ), (7200 : ℤ)) ∈ getGoodSections 6 600 none none [[(0, 7200)]] ∧
    ∃ tEnd : ℤ, 0 < chunkCount 6 600 600 (tEnd - 0) ∧
      (7200 : ℤ) = 0 + trimDelta 6 600 600 (chunkCount 6 600 600 (tEnd - 0)) :=
  ⟨by decide,
    (c1_window_count_and_trim 6 600 none none [[(0, 7200)]] (0, 7200)
      (by decide)).1⟩

theorem sum_map_sub_mean (l : List ℚ) :
    (l.map fun v => v - listMean l).sum = 0 := by
  have h : ∀ (m : ℚ) (l2 : List ℚ),
      (l2.map fun v => v - m).sum = l2.sum - l2.length * m := by
    intro m l2
    induction l2 with
    | nil => simp
    | cons x xs ih =>
      simp only [List.map_cons, List.sum_cons, ih, List.length_cons]
      push_cast
      ring
  rw [h]
  cases l with
  | nil => simp [listMean]
  | cons x xs =>
    rw [listMean]
    have hne : (((x :: xs).length : ℚ)) ≠ 0 := by
      simp only [List.length_cons]
      push_cast
      positivity
    field_simp

/-- **C7.** `Power.__getitem__`: in evaluation mode the origin is the
deterministic `index * length + border` and the result does not depend on
the random draw; in training mode the index is ignored, the origin is the
drawn value, and it stays inside `[border, total_len − length − border)`
whenever the draw does (the `np.random.randint` contract); the target and
status windows are the `length` samples starting at the origin (border
excluded), the input window has `length + 2·border` samples, and the input
is centered by its own mean, so it sums to zero. -/
theorem c7_getitem_windows (P : Power) (index r : ℕ)
    (hb : P.border ≤ P.origin index r)
    (hub : P.origin index r + P.winLen + P.border ≤ P.meter.length)
    (happ : P.appliance.length = P.meter.length)
    (hst : P.status.length = P.meter.length) :
    (P.train = false → P.origin index r = index * P.winLen + P.border ∧
      ∀ r2, P.getItem index r = P.getItem index r2) ∧
    (P.train = true → P.origin index r = r ∧
      (∀ idx2, P.getItem index r = P.getItem idx2 r) ∧
      (P.border ≤ r → r < P.meter.length - P.winLen - P.border →
        P.border ≤ P.origin index r ∧
        P.origin index r < P.meter.length - P.winLen - P.border)) ∧
    (P.getItem index r).1.length = P.winLen + 2 * P.border ∧
    (P.getItem index r).2.1.length = P.winLen ∧
    (P.getItem index r).2.2.length = P.winLen ∧
    (∀ k, (P.getItem index r).2.1[k]? =
      if k < P.winLen then P.appliance[P.origin index r + k]? else none) ∧
    (∀ k, (P.getItem index r).2.2[k]? =
      if k < P.winLen then P.status[P.origin index r + k]? else none) ∧
    (P.getItem index r).1.sum = 0 := by
  refine ⟨?_, ?_, ?_, ?_, ?_, ?_, ?_, ?_⟩
  · intro h
    constructor
    · simp [Power.origin, h]
    · intro r2
      simp [Power.getItem, Power.origin, h]
  · intro h
    have ho : P.origin index r = r := by simp [Power.origin, h]
    refine ⟨ho, ?_, ?_⟩
    · intro idx2
      simp [Power.getItem, Power.origin, h]
    · intro h1 h2
      rw [ho]
      exact ⟨h1, h2⟩
  · simp only [Power.getItem, List.length_map, List.length_take,
      List.length_drop]
    omega
  · simp only [Power.getItem, List.length_take, List.length_drop]
    omega
  · simp only [Power.getItem, List.length_take, List.length_drop]
    omega
  · intro k
    simp only [Power.getItem, List.getElem?_take, List.getElem?_drop]
  · intro k
    simp only [Power.getItem, List.getElem?_take, List.getElem?_drop]
  · simp only [Power.getItem]
    exact sum_map_sub_mean _

/-- Witness for C7 at a concrete training-mode dataset (`winLen = 2`,
`border = 1`, eight samples, draw `r = 2`). -/
theorem c7_witness :
    (Power.getItem ⟨2, 1, 1, true, [4, 4, 4, 4, 4, 4, 4, 4],
      [1, 2, 3, 4, 5, 6, 7, 8], [0, 0, 1, 1, 0, 0, 1, 1]⟩ 0 2).1.sum = 0 ∧
    (Power.getItem ⟨2, 1, 1, true, [4, 4, 4, 4, 4, 4, 4, 4],
      [1, 2, 3, 4, 5, 6, 7, 8], [0, 0, 1, 1, 0, 0, 1, 1]⟩ 0 2).2.1.length = 2 := by
  have h := c7_getitem_windows ⟨2, 1, 1, true, [4, 4, 4, 4, 4, 4, 4, 4],
    [1, 2, 3, 4, 5, 6, 7, 8], [0, 0, 1, 1, 0, 0, 1, 1]⟩ 0 2
    (by decide) (by decide) (by decide) (by decide)
  exact ⟨h.2.2.2.2.2.2.2, h.2.2.2.1⟩

theorem clip_thresh_val (cutoff v : ℚ) :
    threshVal (clipVal cutoff v) = 0 ∨
    (10 ≤ threshVal (clipVal cutoff v) ∧ threshVal (clipVal cutoff v) ≤ cutoff) := by
  unfold clipVal threshVal
  split_ifs with h
  · exact Or.inl rfl
  · exact Or.inr ⟨not_lt.mp h, min_le_right _ _⟩

theorem ffillGo_mem_some (limit : ℕ) :
    ∀ (l : List (Option ℚ)) (last : Option ℚ) (cnt : ℕ) (v : ℚ),
      some v ∈ ffillGo limit last cnt l → some v ∈ l ∨ some v = last
  | [], last, cnt, v => by simp [ffillGo]
  | none :: rest, none, cnt, v => by
    intro h
    simp only [ffillGo] at h
    rcases List.mem_cons.mp h with h1 | h2
    · exact absurd h1 (by simp)
    · rcases ffillGo_mem_some limit rest none cnt v h2 with h3 | h3
      · exact Or.inl (List.mem_cons_of_mem _ h3)
      · exact Or.inr h3
  | none :: rest, some w, cnt, v => by
    intro h
    simp only [ffillGo] at h
    by_cases hc : cnt < limit
    · rw [if_pos hc] at h
      rcases List.mem_cons.mp h with h1 | h2
      · exact Or.inr h1
      · rcases ffillGo_mem_some limit rest (some w) (cnt + 1) v h2 with h3 | h3
        · exact Or.inl (List.mem_cons_of_mem _ h3)
        · exact Or.inr h3
    · rw [if_neg hc] at h
      rcases List.mem_cons.mp h with h1 | h2
      · exact absurd h1 (by simp)
      · rcases ffillGo_mem_some limit rest (some w) (cnt + 1) v h2 with h3 | h3
        · exact Or.inl (List.mem_cons_of_mem _ h3)
        · exact Or.inr h3
  | some w :: rest, last, cnt, v => by
    intro h
    simp only [ffillGo] at h
    rcases List.mem_cons.mp h with h1 | h2
    · exact Or.inl (List.mem_cons.mpr (Or.inl h1))
    · rcases ffillGo_mem_some limit rest (some w) 0 v h2 with h3 | h3
      · exact Or.inl (List.mem_cons_of_mem _ h3)
      · exact Or.inl (List.mem_cons.mpr (Or.inl h3))

theorem chunkRowsF_mem_of_mem {α : Type} (n : ℕ) :
    ∀ (fuel : ℕ) (l : List α) (row : List α), row ∈ chunkRowsF fuel n l →
      ∀ v ∈ row, v ∈ l
  | 0, [], row => by simp [chunkRowsF]
  | 0, _ :: _, row => by simp [chunkRowsF]
  | fuel + 1, [], row => by simp [chunkRowsF]
  | fuel + 1, x :: xs, row => by
    intro hrow v hv
    rw [chunkRowsF] at hrow
    rcases List.mem_cons.mp hrow with h1 | h2
    · exact List.mem_of_mem_take (h1 ▸ hv)
    · exact List.mem_of_mem_drop
        (chunkRowsF_mem_of_mem n fuel ((x :: xs).drop n) row h2 v hv)

theorem chunkRows_mem_of_mem {α : Type} (n : ℕ) (l : List α) (row : List α)
    (hrow : row ∈ chunkRows n l) : ∀ v ∈ row, v ∈ l := by
  cases n with
  | zero =>
    cases l with
    | nil => simp [chunkRows] at hrow
    | cons x xs =>
      simp [chunkRows] at hrow
      subst hrow
      exact fun v hv => hv
  | succ m => exact chunkRowsF_mem_of_mem (m + 1) l.length l row hrow

theorem listMean_bounds (c : ℚ) (hc : 0 ≤ c) (l : List ℚ)
    (h : ∀ v ∈ l, 0 ≤ v ∧ v ≤ c) : 0 ≤ listMean l ∧ listMean l ≤ c := by
  cases l with
  | nil =>
    constructor
    · simp [listMean]
    · simpa [listMean] using hc
  | cons x xs =>
    have hlen : (0 : ℚ) < (((x :: xs).length : ℕ) : ℚ) := by
      have : 0 < (x :: xs).length := by simp
      exact_mod_cast this
    have hsum0 : 0 ≤ (x :: xs).sum := List.sum_nonneg fun v hv => (h v hv).1
    have hsumc : (x :: xs).sum ≤ (((x :: xs).length : ℕ) : ℚ) * c := by
      have h2 := List.sum_le_card_nsmul (x :: xs) c fun v hv => (h v hv).2
      simpa [nsmul_eq_mul] using h2
    constructor
    · exact div_nonneg hsum0 hlen.le
    · rw [listMean, div_le_iff₀ hlen]
      linarith

/-- **C10.** Every value produced by `load_ukdale_meter` lies in
`[0, cutoff]`: readings are clipped to `[0, cutoff]`, readings strictly
below 10 become 0 before resampling (so every recorded value entering the
grid is 0 or in `[10, cutoff]`), holes beyond the forward-fill limit become
0, and period means of such values stay in `[0, cutoff]`. -/
theorem c10_meter_range (cutoff : ℚ) (period : ℕ) (raw : List (Option ℚ))
    (v w : ℚ) (hc : 0 ≤ cutoff)
    (hv : v ∈ loadUkdaleMeter cutoff period raw)
    (hw : some w ∈ raw.map (Option.map fun u => threshVal (clipVal cutoff u))) :
    (0 ≤ v ∧ v ≤ cutoff) ∧ (w = 0 ∨ (10 ≤ w ∧ w ≤ cutoff)) := by
  constructor
  · simp only [loadUkdaleMeter] at hv
    rcases List.mem_map.mp hv with ⟨row, hrow, rfl⟩
    refine listMean_bounds cutoff hc row ?_
    intro u hu
    have hu2 := chunkRows_mem_of_mem period _ row hrow u hu
    rcases List.mem_map.mp hu2 with ⟨o, ho, rfl⟩
    cases o with
    | none => exact ⟨le_refl _, hc⟩
    | some z =>
      simp only [ffill] at ho
      rcases ffillGo_mem_some 300 _ none 0 z ho with hin | habs
      · rcases List.mem_map.mp hin with ⟨o2, ho2, heq⟩
        cases o2 with
        | none => simp at heq
        | some u0 =>
          simp only [Option.map] at heq
          injection heq with heq2
          show 0 ≤ z ∧ z ≤ cutoff
          rw [← heq2]
          rcases clip_thresh_val cutoff u0 with h0 | ⟨h10, hcut⟩
          · rw [h0]
            exact ⟨le_refl _, hc⟩
          · exact ⟨by linarith, hcut⟩
      · simp at habs
  · rcases List.mem_map.mp hw with ⟨o, ho, heq⟩
    cases o with
    | none => simp at heq
    | some u0 =>
      simp only [Option.map] at heq
      injection heq with heq2
      rw [← heq2]
      rcases clip_thresh_val cutoff u0 with h0 | hb
      · exact Or.inl h0
      · exact Or.inr hb

/-- Witness for C10: at cutoff 10000 and period 1, the raw grid
`[some 20000, none, some 5000, some 3]` yields `[10000, 10000, 5000, 0]`;
the value `5000` of the output and the clipped-and-thresholded reading
`10000` both satisfy the theorem's bounds. -/
theorem c10_witness :
    ((0 : ℚ) ≤ 5000 ∧ (5000 : ℚ) ≤ 10000) ∧
    ((10000 : ℚ) = 0 ∨ ((10 : ℚ) ≤ 10000 ∧ (10000 : ℚ) ≤ 10000)) := by
  have he : loadUkdaleMeter 10000 1 [some 20000, none, some 5000, some 3] =
      [10000, 10000, 5000, 0] := by
    norm_num [loadUkdaleMeter, ffill, ffillGo, chunkRows, chunkRowsF, listMean,
      clipVal, threshVal]
  have hm : (5000 : ℚ) ∈
      loadUkdaleMeter 10000 1 [some 20000, none, some 5000, some 3] := by
    rw [he]
    exact List.mem_cons_of_mem _ (List.mem_cons_of_mem _ (List.mem_cons_self _ _))
  have hmap : ([some 20000, none, some 5000, some 3] : List (Option ℚ)).map
      (Option.map fun u => threshVal (clipVal 10000 u)) =
      [some 10000, none, some 5000, some 0] := by
    norm_num [clipVal, threshVal]
  have hth : some (10000 : ℚ) ∈
      ([some 20000, none, some 5000, some 3] : List (Option ℚ)).map
        (Option.map fun u => threshVal (clipVal 10000 u)) := by
    rw [hmap]
    exact List.mem_cons_self _ _
  exact c10_meter_range 10000 1 [some 20000, none, some 5000, some 3] 5000 10000
    (by norm_num) hm hth

theorem colNames_truncTable (u : Table) : colNames (truncTable u) = colNames u := by
  simp [colNames, truncTable, List.map_map, Function.comp]

theorem numRows_truncTable (u : Table) : numRows (truncTable u) = numRows u := by
  cases u with
  | nil => rfl
  | cons c cs => simp [numRows, truncTable]

theorem mem_sortedNames {a : String} {l : List String} :
    a ∈ sortedNames l ↔ a ∈ l :=
  (List.perm_insertionSort nameLE l).mem_iff

theorem colNames_groupSumCols (t : Table) :
    colNames (groupSumCols t) = sortedNames (colNames t).dedup := by
  simp only [groupSumCols, colNames, List.map_map]
  exact List.map_id' _

theorem mem_colNames_groupSumCols {a : String} (t : Table) :
    a ∈ colNames (groupSumCols t) ↔ a ∈ colNames t := by
  rw [colNames_groupSumCols, mem_sortedNames, List.mem_dedup]

theorem mem_colNames_mainTable {a : String} (t : Table) (toInt : Bool) :
    a ∈ colNames (mainTable t toInt) ↔ a ∈ colNames t := by
  cases toInt with
  | false => exact mem_colNames_groupSumCols t
  | true =>
    rw [mainTable, if_pos rfl, colNames_truncTable]
    exact mem_colNames_groupSumCols t

theorem sortTable_perm (t : Table) : List.Perm (sortTable t) t :=
  List.perm_insertionSort tableLE t

theorem sorted_names_sortTable (t : Table) :
    List.Sorted nameLE (colNames (sortTable t)) := by
  have h : List.Sorted tableLE (sortTable t) :=
    List.sorted_insertionSort tableLE t
  exact List.pairwise_map.mpr h

theorem mem_colNames_iff {a : String} (u : Table) :
    a ∈ colNames u ↔ ∃ col, (a, col) ∈ u := by
  constructor
  · intro h
    rcases List.mem_map.mp h with ⟨⟨x, y⟩, hc, rfl⟩
    exact ⟨y, hc⟩
  · rintro ⟨col, h⟩
    exact List.mem_map.mpr ⟨(a, col), h, rfl⟩

theorem colNames_append (u v : Table) :
    colNames (u ++ v) = colNames u ++ colNames v := by
  simp [colNames]

theorem metergroupToArray_ok_eq (t : Table) (apps2 : Option (List String))
    (toInt : Bool) (h : "_main" ∈ colNames (mainTable t toInt)) :
    metergroupToArray t apps2 toInt = .ok (sortTable (zeroFill
      (appsFor (colNames (mainTable t toInt)) apps2)
      (numRows (mainTable t toInt))
      (keepRequested (appsFor (colNames (mainTable t toInt)) apps2)
        (mainTable t toInt)))) := by
  simp [metergroupToArray, h]

theorem metergroupToArray_missing_main (t : Table)
    (apps2 : Option (List String)) (toInt : Bool)
    (h : "_main" ∉ colNames t) :
    metergroupToArray t apps2 toInt =
      .error "No _main meter contained in df columns" := by
  have h2 : "_main" ∉ colNames (mainTable t toInt) := fun hc =>
    h ((mem_colNames_mainTable t toInt).mp hc)
  simp [metergroupToArray, h2]

theorem mem_appsFor_some {a : String} (names reqs : List String) :
    a ∈ appsFor names (some reqs) ↔ a ∈ reqs ∨ a = "_main" := by
  by_cases h : "_main" ∈ reqs
  · rw [appsFor, if_pos h]
    constructor
    · exact Or.inl
    · rintro (h1 | rfl)
      · exact h1
      · exact h
  · rw [appsFor, if_neg h]
    simp

theorem mem_keepRequested {c : String × List ℚ} (apps : List String)
    (u : Table) : c ∈ keepRequested apps u ↔ c ∈ u ∧ c.1 ∈ apps := by
  simp [keepRequested]

theorem zeroFill_mem_zero {a : String} (apps : List String) (nrows : ℕ)
    (t3 : Table) (ha : a ∈ apps) (hnot : a ∉ colNames t3) :
    (a, List.replicate nrows (0 : ℚ)) ∈ zeroFill apps nrows t3 := by
  refine List.mem_append.mpr (Or.inr ?_)
  refine List.mem_map.mpr ⟨a, ?_, rfl⟩
  rw [List.mem_dedup, List.mem_filter]
  exact ⟨ha, by simpa using hnot⟩

theorem zeroFill_mem_elim {c : String × List ℚ} (apps : List String)
    (nrows : ℕ) (t3 : Table) (h : c ∈ zeroFill apps nrows t3) :
    c ∈ t3 ∨ (c.1 ∈ apps ∧ c.2 = List.replicate nrows 0) := by
  rcases List.mem_append.mp h with h1 | h2
  · exact Or.inl h1
  · rcases List.mem_map.mp h2 with ⟨a, ha, hfa⟩
    rw [List.mem_dedup, List.mem_filter] at ha
    subst hfa
    exact Or.inr ⟨ha.1, rfl⟩

/-- **C5 counterexample.** `df.reindex(sorted(df.columns))` sorts all columns
including `"_main"` itself; a column named `"A"` (capital letter, code point
`0x41` below `'_'` = `0x5F`) sorts before `"_main"`, so the main meter ends
up in column 1, not column 0. -/
theorem c5_counterexample :
    metergroupToArray [("A", [1]), ("_main", [2])] none false =
      .ok [("A", [1]), ("_main", [2])] ∧ ("A" : String) ≠ "_main" := by decide

/-- **C5 (amended).** Provided every column or requested name other than
`"_main"` is lexicographically greater than `"_main"` (as with the
lowercase appliance names the pipeline produces), `metergroup_to_array`
returns a table whose first column is `"_main"` and whose columns are sorted
by name; every requested appliance is a column, every kept column is the
main meter or a requested appliance, and every requested appliance missing
from the data becomes an all-zero column.  If the main meter is missing a
fatal error is raised, and requesting `{a, b}` when only `a` (and an
unrequested `c`) is present yields exactly the three columns
`_main, a, b` with `b` identically zero. -/
theorem c5_amended_columns (t : Table) (reqs : List String) (toInt : Bool)
    (hmain : "_main" ∈ colNames t)
    (hgt : ∀ nm, (nm ∈ colNames t ∨ nm ∈ reqs) → nm ≠ "_main" →
      "_main".data < nm.data) :
    (∃ tb, metergroupToArray t (some reqs) toInt = .ok tb ∧
      (colNames tb).head? = some "_main" ∧
      List.Sorted nameLE (colNames tb) ∧
      (∀ a ∈ reqs, a ∈ colNames tb) ∧
      (∀ c ∈ colNames tb, c = "_main" ∨ c ∈ reqs) ∧
      (∀ a ∈ reqs, a ∉ colNames t →
        (a, List.replicate (numRows (mainTable t toInt)) (0 : ℚ)) ∈ tb)) ∧
    (∀ t2 (apps2 : Option (List String)) (ti2 : Bool),
      "_main" ∉ colNames t2 →
      metergroupToArray t2 apps2 ti2 =
        .error "No _main meter contained in df columns") ∧
    metergroupToArray [("_main", [7, 8]), ("a", [1, 2]), ("c", [3, 4])]
      (some ["a", "b"]) false =
      .ok [("_main", [7, 8]), ("a", [1, 2]), ("b", [0, 0])] := by
  refine ⟨?_, fun t2 apps2 ti2 h =>
    metergroupToArray_missing_main t2 apps2 ti2 h, by decide⟩
  have hmain2 : "_main" ∈ colNames (mainTable t toInt) :=
    (mem_colNames_mainTable t toInt).mpr hmain
  set T2 := mainTable t toInt with hT2
  set apps := appsFor (colNames T2) (some reqs) with happs
  set K := keepRequested apps T2 with hKdef
  set Z := zeroFill apps (numRows T2) K with hZdef
  have hsubT2 : ∀ a : String, a ∈ colNames K → a ∈ colNames T2 := by
    intro a h
    rcases (mem_colNames_iff K).mp h with ⟨col, hc⟩
    exact (mem_colNames_iff T2).mpr ⟨col, ((mem_keepRequested apps T2).mp hc).1⟩
  have hZnames : ∀ a : String, a ∈ colNames (sortTable Z) ↔ a ∈ colNames Z :=
    fun a => ((sortTable_perm Z).map Prod.fst).mem_iff
  have hZmem : ∀ c : String × List ℚ, c ∈ sortTable Z ↔ c ∈ Z :=
    fun c => (sortTable_perm Z).mem_iff
  have hnames_apps : ∀ a : String, a ∈ colNames Z → a ∈ apps := by
    intro a h
    rcases (mem_colNames_iff Z).mp h with ⟨col, hc⟩
    rcases zeroFill_mem_elim apps (numRows T2) K hc with h1 | h2
    · rcases (mem_keepRequested apps T2).mp h1 with ⟨-, h3⟩
      exact h3
    · exact h2.1
  have hreq_names : ∀ a ∈ reqs, a ∈ colNames Z := by
    intro a ha
    have haapps : a ∈ apps := (mem_appsFor_some (colNames T2) reqs).mpr (Or.inl ha)
    by_cases hk : a ∈ colNames K
    · rcases (mem_colNames_iff K).mp hk with ⟨col, hc⟩
      exact (mem_colNames_iff Z).mpr ⟨col, List.mem_append.mpr (Or.inl hc)⟩
    · exact (mem_colNames_iff Z).mpr
        ⟨_, zeroFill_mem_zero apps (numRows T2) K haapps hk⟩
  have hmainZ : "_main" ∈ colNames Z := by
    have hma : ("_main" : String) ∈ apps :=
      (mem_appsFor_some (colNames T2) reqs).mpr (Or.inr rfl)
    rcases (mem_colNames_iff T2).mp hmain2 with ⟨col, hc⟩
    exact (mem_colNames_iff Z).mpr ⟨col, List.mem_append.mpr
      (Or.inl ((mem_keepRequested apps T2).mpr ⟨hc, hma⟩))⟩
  have hcols : ∀ c ∈ colNames (sortTable Z), c = "_main" ∨ c ∈ reqs := by
    intro c hc
    have := hnames_apps c ((hZnames c).mp hc)
    rcases (mem_appsFor_some (colNames T2) reqs).mp this with h1 | h1
    · exact Or.inr h1
    · exact Or.inl h1
  refine ⟨sortTable Z, metergroupToArray_ok_eq t (some reqs) toInt hmain2,
    ?_, sorted_names_sortTable Z, ?_, hcols, ?_⟩
  · -- head is "_main"
    have hmaintb : "_main" ∈ colNames (sortTable Z) := (hZnames _).mpr hmainZ
    have hsorted := sorted_names_sortTable Z
    cases hn : colNames (sortTable Z) with
    | nil =>
      rw [hn] at hmaintb
      simp at hmaintb
    | cons h0 rest =>
      rw [hn] at hmaintb hsorted
      have hh0 : h0 = "_main" ∨ h0 ∈ reqs := by
        have : h0 ∈ colNames (sortTable Z) := by
          rw [hn]
          exact List.mem_cons_self h0 rest
        exact hcols h0 this
      simp only [List.head?_cons, Option.some.injEq]
      rcases List.mem_cons.mp hmaintb with hm | hm
      · exact hm.symm
      · have hle : nameLE h0 "_main" := List.rel_of_sorted_cons hsorted _ hm
        rcases hh0 with rfl | hr
        · rfl
        · by_cases hne : h0 = "_main"
          · exact hne
          · have hlt := hgt h0 (Or.inr hr) hne
            exact absurd hle (not_le_of_lt hlt)
  · intro a ha
    exact (hZnames a).mpr (hreq_names a ha)
  · intro a ha hnot
    have haapps : a ∈ apps := (mem_appsFor_some (colNames T2) reqs).mpr (Or.inl ha)
    have hnotT2 : a ∉ colNames T2 := fun hc =>
      hnot ((mem_colNames_mainTable t toInt).mp (hT2 ▸ hc))
    have hnotK : a ∉ colNames K := fun hc => hnotT2 (hsubT2 a hc)
    exact (hZmem _).mpr (zeroFill_mem_zero apps (numRows T2) K haapps hnotK)

/-- Witness for C5 at a concrete lowercase table: main present, requesting
`{a, b}` with only `a` (plus unrequested `c`) physically present. -/
theorem c5_witness :
    (("_main" : String) ∈
      colNames [("_main", ([7, 8] : List ℚ)), ("a", [1, 2]), ("c", [3, 4])]) ∧
    metergroupToArray [("_main", [7, 8]), ("a", [1, 2]), ("c", [3, 4])]
      (some ["a", "b"]) false =
      .ok [("_main", [7, 8]), ("a", [1, 2]), ("b", [0, 0])] :=
  ⟨by decide,
    (c5_amended_columns [("_main", [7, 8]), ("a", [1, 2]), ("c", [3, 4])]
      ["a", "b"] false (by decide)
      (by
        intro nm h hne
        have hcases : nm = "_main" ∨ nm = "a" ∨ nm = "c" ∨ nm = "b" := by
          rcases h with h | h
          · simp [colNames] at h
            tauto
          · simp at h
            tauto
        rcases hcases with rfl | rfl | rfl | rfl
        · exact absurd rfl hne
        · decide
        · decide
        · decide)).2.2⟩
